import Mathlib

/-!
Verification of the CMA (cross-memory-attach) channel of tensorpipe,
shallowly embedded from `src/tensorpipe/channel/cma/cma.cc` and
`src/tensorpipe/channel/cma/cma.h`.

Conventions of the embedding:
* machine pointers, pids and ids are modelled as `Nat` (the `uint64_t`
  send-operation counter gets an explicit `% 2 ^ 64`);
* the return value of `process_vm_readv` (`ssize_t`) is an `Int`;
* `Error` objects are `Option Err`, where `none` is `Error::kSuccess`;
* callbacks are opaque one-shot sinks; invoking one is recorded as an
  observable event in a trace, tagged with enough data (e.g. the send
  operation id) to identify which callback fired;
* `TP_THROW_ASSERT` (a fatal assertion) is modelled by an `Option`
  result being `none`.
-/

namespace Cma

/-- Typed errors used by the cma channel (see `TP_CREATE_ERROR` calls in
`cma.cc`): `SystemError{errno}`, `ShortReadError{expected, got}`,
`ChannelClosedError`, plus transport errors propagated from the
connection callbacks. -/
inductive Err where
  | systemError (errnum : Int)
  | shortReadError (expected : Nat) (got : Int)
  | channelClosedError
  | transportError (code : Int)
deriving DecidableEq

/-- `Context::Impl::CopyRequest` (cma.h lines 87-93), with the opaque
callback elided: the callback invocation is recorded as a trace event. -/
structure CopyRequest where
  remotePid : Nat
  remotePtr : Nat
  localPtr : Nat
  length : Nat
deriving DecidableEq

/-- Observable actions of the worker thread `handleCopyRequests_`: one
`process_vm_readv` invocation (with the iovec data it was given), or one
invocation of a request callback with a result. -/
inductive WorkerEvent where
  | syscall (remotePid localPtr remotePtr length : Nat)
  | callback (result : Option Err)
deriving DecidableEq

/-- Outcome classification of one `process_vm_readv` result, embedded
from `handleCopyRequests_` (cma.cc lines 160-168): `-1` yields
`SystemError{errno}`, any other value different from the requested
length yields `ShortReadError{length, nread}`, and `nread == length`
yields success. -/
def classifyReadResult (length : Nat) (nread errnum : Int) : Option Err :=
  if nread = -1 then some (Err.systemError errnum)
  else if nread ≠ (length : Int) then some (Err.shortReadError length nread)
  else none

/-- The worker loop `Context::Impl::handleCopyRequests_` (cma.cc lines
145-170). The queue is a list of optional requests; `none` is the
shutdown sentinel that terminates the loop. The OS is an oracle `os`
mapping the index of a `process_vm_readv` invocation to the pair
`(nread, errno)` it produces. The result is the trace of observable
worker events. -/
def handleCopyRequests (os : Nat → Int × Int) :
    Nat → List (Option CopyRequest) → List WorkerEvent
  | _, [] => []
  | _, none :: _ => []
  | k, some req :: rest =>
      WorkerEvent.syscall req.remotePid req.localPtr req.remotePtr req.length ::
      WorkerEvent.callback (classifyReadResult req.length (os k).1 (os k).2) ::
      handleCopyRequests os (k + 1) rest

/-- The per-request outcome table exactly as the spec states it (§4.1):
`-1` maps to `SystemError{errno}`; a return equal to `length` (also when
`length = 0`) maps to success; any other return maps to
`ShortReadError{expected = length, got = n}`. -/
def specOutcome (length : Nat) (nread errnum : Int) : Option Err :=
  if nread = -1 then some (Err.systemError errnum)
  else if nread = (length : Int) then none
  else some (Err.shortReadError length nread)

/-- The worker trace the spec promises for a list of popped requests:
for each request, exactly one syscall invocation carrying the request's
`(remotePid, localPtr/length, remotePtr/length)`, immediately followed
by exactly one callback invocation with the `specOutcome` of that
syscall. -/
def specWorkerTrace (os : Nat → Int × Int) : Nat → List CopyRequest → List WorkerEvent
  | _, [] => []
  | k, req :: rest =>
      WorkerEvent.syscall req.remotePid req.localPtr req.remotePtr req.length ::
      WorkerEvent.callback (specOutcome req.length (os k).1 (os k).2) ::
      specWorkerTrace os (k + 1) rest

theorem classifyReadResult_eq_specOutcome (length : Nat) (nread errnum : Int) :
    classifyReadResult length nread errnum = specOutcome length nread errnum := by
  unfold classifyReadResult specOutcome
  by_cases h1 : nread = -1
  · simp [h1]
  · by_cases h2 : nread = (length : Int)
    · simp [h1, h2]
    · simp [h1, h2]

theorem handleCopyRequests_eq_specWorkerTrace (os : Nat → Int × Int)
    (junk : List (Option CopyRequest)) :
    ∀ (reqs : List CopyRequest) (k : Nat),
      handleCopyRequests os k (reqs.map some ++ none :: junk)
        = specWorkerTrace os k reqs := by
  intro reqs
  induction reqs with
  | nil => intro k; rfl
  | cons req rest ih =>
      intro k
      simp only [List.map_cons, List.cons_append, handleCopyRequests,
        specWorkerTrace, classifyReadResult_eq_specOutcome, List.append_eq,
        ih (k + 1)]

/-- Claim C1: for every CopyRequest the worker pops from the queue (all
the `some` entries before the shutdown sentinel), it invokes
`process_vm_readv` exactly once with the request's
`(remotePid, localPtr/length, remotePtr/length)` and then invokes the
request's callback exactly once, with `SystemError{errno}` if the
primitive returned `-1`, `ShortReadError{expected = length, got = n}` if
it returned `n ≠ length`, and success if it returned exactly `length` —
also for `length = 0`, where the syscall still appears in the trace and
a zero-byte full read is reported as success. Stated as: the worker
trace on any queue `reqs ++ sentinel ++ junk` equals the spec-mandated
trace for `reqs`. -/
theorem claim1_copy_engine_trace (reqs : List CopyRequest)
    (junk : List (Option CopyRequest)) (os : Nat → Int × Int) :
    handleCopyRequests os 0 (reqs.map some ++ none :: junk)
      = specWorkerTrace os 0 reqs :=
  handleCopyRequests_eq_specWorkerTrace os junk reqs 0

/-- The wire `proto::Descriptor` produced by `sendFromLoop_` (cma.cc
lines 270-275): operation id, sender pid, buffer pointer. -/
structure Descriptor where
  operationId : Nat
  pid : Nat
  ptr : Nat
deriving DecidableEq

/-- The wire `proto::Packet`, a tagged union whose only variant used by
the cma channel is `Notification { operation_id }`. -/
inductive Packet where
  | notification (operationId : Nat)
deriving DecidableEq

/-- Observable actions of a channel loop task: appending a
`SendOperation` to the in-flight list, invoking the descriptor callback,
invoking the send callback of the operation with the given id, invoking
a recv callback, submitting a copy request to the context (tagged with
the operation id its completion handler captured), writing a packet on
the transport connection, closing the connection, and re-arming a
transport read. -/
inductive Event where
  | opAppended (opId : Nat)
  | descriptorCb (err : Option Err) (d : Descriptor)
  | sendCb (opId : Nat) (err : Option Err)
  | recvCb (err : Option Err)
  | requestCopy (remotePid remotePtr localPtr length opId : Nat)
  | connWrite (p : Packet)
  | connClose
  | armRead
deriving DecidableEq

/-- `Channel::Impl` state (cma.h lines 211-225): the sticky error, the
increasing `uint64_t` send-operation id counter, the in-flight
`sendOperations_` list (each operation represented by its id, which
identifies its callback), and whether the transport connection has been
closed. -/
structure Channel where
  error : Option Err
  id : Nat
  sendOperations : List Nat
  connectionClosed : Bool
deriving DecidableEq

/-- Cardinality of `uint64_t`, the type of the id counter `id_`. -/
def uint64Card : Nat := 2 ^ 64

/-- A freshly constructed channel: no error, id counter 0, no in-flight
operations, connection open. -/
def initChannel : Channel :=
  { error := none, id := 0, sendOperations := [], connectionClosed := false }

/-- `Channel::Impl::handleError_` (cma.cc lines 394-406): move the
in-flight operations out, invoke each callback with the current error,
and close the connection. -/
def handleError (c : Channel) : Channel × List Event :=
  ({ c with sendOperations := [], connectionClosed := true },
   (c.sendOperations.map fun i => Event.sendCb i c.error) ++ [Event.connClose])

/-- `Channel::Impl::closeFromLoop_` (cma.cc lines 347-353): if no error
is set, set `ChannelClosedError` and run `handleError_`; otherwise do
nothing. -/
def closeFromLoop (c : Channel) : Channel × List Event :=
  match c.error with
  | none => handleError { c with error := some Err.channelClosedError }
  | some _ => (c, [])

/-- `Channel::Impl::sendFromLoop_` (cma.cc lines 257-279): on an errored
channel, `TP_THROW_ASSERT()` (modelled as `none`); otherwise allocate
`id = id_++` (a `uint64_t`), build the descriptor from the id, the local
pid and the buffer pointer, append `SendOperation{id, callback}` to the
in-flight list, and only then invoke the descriptor callback with
success and the descriptor. The `length` argument is accepted but, like
in the source, not used by the send path. -/
def sendFromLoop (c : Channel) (ptr length pid : Nat) :
    Option (Channel × List Event) :=
  match c.error with
  | some _ => none
  | none =>
      some ({ c with
                id := (c.id + 1) % uint64Card,
                sendOperations := c.sendOperations ++ [c.id] },
            [Event.opAppended c.id, Event.descriptorCb none ⟨c.id, pid, ptr⟩])

/-- `Channel::Impl::recvFromLoop_` (cma.cc lines 304-333): parse the
descriptor and submit a copy request
`(remotePid, remotePtr, localPtr, length)` to the context, whose
completion handler captures the descriptor's operation id. Note that
the source does not consult the error state here (the `TODO` comment at
line 310). -/
def recvFromLoop (c : Channel) (descriptor : Descriptor)
    (localPtr length : Nat) : Channel × List Event :=
  (c, [Event.requestCopy descriptor.pid descriptor.ptr localPtr length
        descriptor.operationId])

/-- Completion of a recv's copy request, i.e. the behavior of
`copyCallbackWrapper_` applied to the handler in `recvFromLoop_` (cma.cc
lines 321-332). The handler itself is source: write
`Notification{id}` on the connection and invoke the recv callback with
`impl.error_`. The wrapper is `DeferringTolerantCallbackWrapper`, whose
definition (`common/callback.h`) is not under `src/`; it is
Modelled from the spec: "If the copy failed, invoke `recvCb(error)`; do
**not** send a notification", "transient per-copy errors do not poison
the channel" (§4.3.3, §7), so on a copy error the wrapper delivers the
error to the recv callback without running the handler. -/
def onCopyDone (c : Channel) (opId : Nat) (copyResult : Option Err) :
    Channel × List Event :=
  match copyResult with
  | some e => (c, [Event.recvCb (some e)])
  | none => (c, [Event.connWrite (Packet.notification opId),
                 Event.recvCb c.error])

/-- `Channel::Impl::onNotification_` (cma.cc lines 374-392): find the
in-flight operation whose id equals the notification's operation id
(`std::find_if` by id); a miss is a fatal assertion (`none`); otherwise
erase that operation and invoke its callback with success. -/
def onNotification (c : Channel) (notifId : Nat) :
    Option (Channel × List Event) :=
  if notifId ∈ c.sendOperations then
    some ({ c with sendOperations := c.sendOperations.erase notifId },
          [Event.sendCb notifId none])
  else none

/-- `Channel::Impl::onPacket_` (cma.cc lines 364-372): assert the packet
is a notification (the only variant of the model), process it, then
re-arm the transport read (`readPacket_`). A fatal assertion inside
`onNotification_` aborts before the re-arm. -/
def onPacket (c : Channel) (p : Packet) : Option (Channel × List Event) :=
  match p with
  | Packet.notification n =>
      match onNotification c n with
      | none => none
      | some (c1, evs) => some (c1, evs ++ [Event.armRead])

/-- Claim C2: if `closeFromLoop_` runs with no error set, the error
becomes `ChannelClosedError` and `handleError_` runs: every operation
then in the in-flight list has its callback invoked exactly once with
that error (the callback count of each id in the emitted events equals
its count in the list), the list is left empty, and the connection is
closed. If an error is already set, the call is a no-op. -/
theorem claim2_close_runs_handleError (c : Channel) :
    (c.error = none →
      (closeFromLoop c).1.error = some Err.channelClosedError ∧
      (closeFromLoop c).1.sendOperations = [] ∧
      (closeFromLoop c).1.connectionClosed = true ∧
      (closeFromLoop c).2
        = (c.sendOperations.map fun i =>
            Event.sendCb i (some Err.channelClosedError)) ++ [Event.connClose] ∧
      ∀ i : Nat,
        ((closeFromLoop c).2.count (Event.sendCb i (some Err.channelClosedError)))
          = c.sendOperations.count i) ∧
    (∀ e : Err, c.error = some e → closeFromLoop c = (c, [])) := by
  constructor
  · intro h
    have hc : closeFromLoop c
        = handleError { c with error := some Err.channelClosedError } := by
      unfold closeFromLoop
      rw [h]
    refine ⟨by rw [hc]; rfl, by rw [hc]; rfl, by rw [hc]; rfl, by rw [hc]; rfl, ?_⟩
    intro i
    rw [hc]
    unfold handleError
    simp only [List.count_append]
    have hinj : Function.Injective
        (fun j : Nat => Event.sendCb j (some Err.channelClosedError)) := by
      intro a b hab
      simpa using hab
    rw [List.count_map_of_injective _ _ hinj]
    simp [List.count_singleton]
  · intro e he
    unfold closeFromLoop
    rw [he]

/-- Witness for C2 at a concrete channel with three in-flight
operations. -/
theorem claim2_close_runs_handleError_witness :
    ((⟨none, 5, [0, 1, 2], false⟩ : Channel).error = none) ∧
    ((closeFromLoop ⟨none, 5, [0, 1, 2], false⟩).1.error
        = some Err.channelClosedError ∧
      (closeFromLoop ⟨none, 5, [0, 1, 2], false⟩).1.sendOperations = [] ∧
      (closeFromLoop ⟨none, 5, [0, 1, 2], false⟩).1.connectionClosed = true ∧
      (closeFromLoop ⟨none, 5, [0, 1, 2], false⟩).2
        = (([0, 1, 2] : List Nat).map fun i =>
            Event.sendCb i (some Err.channelClosedError)) ++ [Event.connClose] ∧
      ∀ i : Nat,
        ((closeFromLoop ⟨none, 5, [0, 1, 2], false⟩).2.count
            (Event.sendCb i (some Err.channelClosedError)))
          = ([0, 1, 2] : List Nat).count i) :=
  ⟨rfl, (claim2_close_runs_handleError ⟨none, 5, [0, 1, 2], false⟩).1 rfl⟩

/-- Claim C3: when a notification with operation id `n` arrives on an
active channel, the channel locates the in-flight operation whose id
equals `n` — wherever it sits in the list, so matching is by id and not
by arrival order — removes exactly that operation, invokes its callback
once with success, and re-arms a transport read; if no in-flight
operation has id `n`, the result is a fatal assertion. -/
theorem claim3_notification_matches_by_id (c : Channel) (n : Nat)
    (hactive : c.error = none) :
    (n ∈ c.sendOperations →
      ∃ pre post, n ∉ pre ∧ c.sendOperations = pre ++ n :: post ∧
        onPacket c (Packet.notification n)
          = some ({ c with sendOperations := pre ++ post },
                  [Event.sendCb n none, Event.armRead])) ∧
    (n ∉ c.sendOperations → onPacket c (Packet.notification n) = none) := by
  constructor
  · intro hmem
    obtain ⟨pre, post, hnp, heq, herase⟩ := List.exists_erase_eq hmem
    refine ⟨pre, post, hnp, heq, ?_⟩
    simp only [onPacket, onNotification, if_pos hmem, herase]
    rfl
  · intro hnm
    simp only [onPacket, onNotification, if_neg hnm]

/-- Witness for C3: a channel with in-flight ids `[2, 0, 1]` receiving a
notification for id `0` (not the head: matching is by id). -/
theorem claim3_notification_matches_by_id_witness :
    ((⟨none, 3, [2, 0, 1], false⟩ : Channel).error = none) ∧
    ((0 : Nat) ∈ ([2, 0, 1] : List Nat)) ∧
    (∃ pre post, (0 : Nat) ∉ pre ∧ ([2, 0, 1] : List Nat) = pre ++ 0 :: post ∧
      onPacket ⟨none, 3, [2, 0, 1], false⟩ (Packet.notification 0)
        = some (⟨none, 3, pre ++ post, false⟩,
                [Event.sendCb 0 none, Event.armRead])) :=
  ⟨rfl, by decide,
   (claim3_notification_matches_by_id ⟨none, 3, [2, 0, 1], false⟩ 0 rfl).1
     (by decide)⟩

/-- Claim C4: on completion of a recv's copy request, a failed copy
delivers exactly the copy error to the recv callback and writes no
notification packet; a successful copy on a channel with no error set
writes a `Notification` carrying the descriptor's operation id and then
invokes the recv callback with success, with no dependency on the
completion of that write (the callback event follows the write event
unconditionally in the same task). -/
theorem claim4_recv_completion (c : Channel) (opId : Nat) :
    (∀ e : Err,
      (onCopyDone c opId (some e)).2 = [Event.recvCb (some e)] ∧
      ∀ p : Packet, Event.connWrite p ∉ (onCopyDone c opId (some e)).2) ∧
    (c.error = none →
      (onCopyDone c opId none).2
        = [Event.connWrite (Packet.notification opId), Event.recvCb none]) := by
  constructor
  · intro e
    constructor
    · rfl
    · intro p
      simp [onCopyDone]
  · intro h
    simp [onCopyDone, h]

/-- Witness for C4 on a concrete active channel. -/
theorem claim4_recv_completion_witness :
    ((⟨none, 4, [1], false⟩ : Channel).error = none) ∧
    ((onCopyDone ⟨none, 4, [1], false⟩ 9 (some (Err.systemError 14))).2
        = [Event.recvCb (some (Err.systemError 14))]) ∧
    ((onCopyDone ⟨none, 4, [1], false⟩ 9 none).2
        = [Event.connWrite (Packet.notification 9), Event.recvCb none]) :=
  ⟨rfl,
   ((claim4_recv_completion ⟨none, 4, [1], false⟩ 9).1 (Err.systemError 14)).1,
   (claim4_recv_completion ⟨none, 4, [1], false⟩ 9).2 rfl⟩

/-- A sequence of loop-processed sends on one channel:
`Channel::Impl::sendFromLoop_` applied in order to a list of
`(ptr, length)` arguments, concatenating the emitted events; `none` if
any of them hits the fatal assertion. -/
def runSends (pid : Nat) : Channel → List (Nat × Nat) → Option (Channel × List Event)
  | c, [] => some (c, [])
  | c, (ptr, len) :: rest =>
      match sendFromLoop c ptr len pid with
      | none => none
      | some (c1, evs1) =>
          match runSends pid c1 rest with
          | none => none
          | some (c2, evs2) => some (c2, evs1 ++ evs2)

/-- The event trace the spec promises for a sequence of sends whose
first operation receives id `k`: for the send with arguments
`(ptr, length)` and id `i`, the operation `i` is appended and then the
descriptor callback is invoked, within the same loop task, with success
and a descriptor carrying `i`, the local pid and the buffer pointer. -/
def specSendTrace (pid : Nat) : Nat → List (Nat × Nat) → List Event
  | _, [] => []
  | k, (ptr, _) :: rest =>
      Event.opAppended k :: Event.descriptorCb none ⟨k, pid, ptr⟩ ::
      specSendTrace pid (k + 1) rest

theorem runSends_eq (pid : Nat) :
    ∀ (inputs : List (Nat × Nat)) (c : Channel),
      c.error = none → c.id + inputs.length < uint64Card →
      runSends pid c inputs
        = some ({ c with
                    id := c.id + inputs.length,
                    sendOperations :=
                      c.sendOperations ++ List.range' c.id inputs.length },
                specSendTrace pid c.id inputs) := by
  intro inputs
  induction inputs with
  | nil =>
      intro c herr hlt
      simp only [runSends, List.length_nil, Nat.add_zero, List.range',
        List.append_nil, specSendTrace]
  | cons hd rest ih =>
      intro c herr hlt
      obtain ⟨ptr, len⟩ := hd
      simp only [List.length_cons] at hlt
      have hstep : sendFromLoop c ptr len pid
          = some ({ c with
                      id := (c.id + 1) % uint64Card,
                      sendOperations := c.sendOperations ++ [c.id] },
                  [Event.opAppended c.id,
                   Event.descriptorCb none ⟨c.id, pid, ptr⟩]) := by
        unfold sendFromLoop
        rw [herr]
      have hnowrap : (c.id + 1) % uint64Card = c.id + 1 :=
        Nat.mod_eq_of_lt (by omega)
      rw [hnowrap] at hstep
      have hrec := ih { c with
                          id := c.id + 1,
                          sendOperations := c.sendOperations ++ [c.id] }
        herr (by simp only; omega)
      simp only [runSends, hstep, hrec, specSendTrace, List.length_cons,
        Option.some.injEq, Prod.mk.injEq, Channel.mk.injEq, List.cons_append,
        List.nil_append, true_and, and_true]
      refine ⟨by omega, ?_⟩
      rw [List.range'_succ]
      simp [List.append_assoc]


/-- Claim C5: starting from a fresh channel, the k-th processed send is
assigned id `k` (the number of previous sends), appends a
`SendOperation` with that id to the in-flight list (so after `n` sends
the list is `[0, 1, ..., n-1]`: ids start at 0, increase by one per
send, strictly increasing, never reused), and invokes the descriptor
callback within the same loop task with success and a descriptor
carrying that id, the local pid and the buffer pointer. The hypothesis
`n < 2 ^ 64` reflects that the id counter is a `uint64_t`. -/
theorem claim5_send_id_allocation (pid : Nat) (inputs : List (Nat × Nat))
    (h : inputs.length < uint64Card) :
    runSends pid initChannel inputs
      = some ({ error := none, id := inputs.length,
                sendOperations := List.range inputs.length,
                connectionClosed := false },
              specSendTrace pid 0 inputs) ∧
    (List.range inputs.length).Pairwise (· < ·) := by
  constructor
  · have := runSends_eq pid inputs initChannel rfl (by simpa [initChannel] using h)
    simpa [initChannel, List.range_eq_range'] using this
  · exact List.pairwise_lt_range inputs.length

/-- Witness for C5: two sends on a fresh channel get ids 0 and 1. -/
theorem claim5_send_id_allocation_witness :
    (([(10, 4), (20, 8)] : List (Nat × Nat)).length < uint64Card) ∧
    (runSends 7 initChannel [(10, 4), (20, 8)]
      = some ({ error := none, id := ([(10, 4), (20, 8)] : List (Nat × Nat)).length,
                sendOperations := List.range ([(10, 4), (20, 8)] : List (Nat × Nat)).length,
                connectionClosed := false },
              specSendTrace 7 0 [(10, 4), (20, 8)]) ∧
     (List.range ([(10, 4), (20, 8)] : List (Nat × Nat)).length).Pairwise (· < ·)) :=
  ⟨by decide, claim5_send_id_allocation 7 [(10, 4), (20, 8)] (by decide)⟩

/-- Counterexample for C7 (recv half): on a channel whose error is
already set, `recvFromLoop_` does not fail immediately and does submit a
copy request — the emitted events consist of exactly the copy-request
submission, with no failing recv callback and no assertion. This
contradicts the claim that a recv processed after the error is set fails
immediately without submitting a copy request (the source marks the
missing short-circuit with a `TODO` comment at cma.cc line 310). -/
theorem claim7_counterexample :
    (recvFromLoop ⟨some Err.channelClosedError, 3, [], false⟩ ⟨5, 77, 4096⟩
        8192 16).2
      = [Event.requestCopy 77 4096 8192 16 5] ∧
    Event.requestCopy 77 4096 8192 16 5
      ∈ (recvFromLoop ⟨some Err.channelClosedError, 3, [], false⟩ ⟨5, 77, 4096⟩
          8192 16).2 := by
  constructor
  · rfl
  · decide

/-- Claim C7 as amended: once the channel error is set, a subsequently
processed send fails immediately as a fatal assertion without allocating
an id or registering an operation (the result is the fatal `none`, so no
state change happens); a subsequently processed recv, however, does not
fail immediately: it ignores the error state and submits the copy
request exactly as on an active channel, leaving the channel state
unchanged (its callback only fails later, through the copy-completion
path). -/
theorem claim7_failed_channel_amended (c : Channel) (e : Err)
    (he : c.error = some e) (ptr len pid : Nat) (d : Descriptor)
    (localPtr length : Nat) :
    sendFromLoop c ptr len pid = none ∧
    recvFromLoop c d localPtr length
      = (c, [Event.requestCopy d.pid d.ptr localPtr length d.operationId]) := by
  constructor
  · unfold sendFromLoop
    rw [he]
  · rfl

/-- Witness for the amended C7 on a concrete failed channel. -/
theorem claim7_failed_channel_amended_witness :
    ((⟨some Err.channelClosedError, 3, [], false⟩ : Channel).error
        = some Err.channelClosedError) ∧
    (sendFromLoop ⟨some Err.channelClosedError, 3, [], false⟩ 10 4 7 = none ∧
     recvFromLoop ⟨some Err.channelClosedError, 3, [], false⟩ ⟨5, 77, 4096⟩
        8192 16
      = (⟨some Err.channelClosedError, 3, [], false⟩,
         [Event.requestCopy 77 4096 8192 16 5])) :=
  ⟨rfl, claim7_failed_channel_amended ⟨some Err.channelClosedError, 3, [], false⟩
    Err.channelClosedError rfl 10 4 7 ⟨5, 77, 4096⟩ 8192 16⟩

/-- A lifecycle call on the context: `Context::close()` or
`Context::join()`. -/
inductive CtxCall where
  | close
  | join
deriving DecidableEq

/-- `Context::Impl` lifecycle state (cma.h lines 95-101): the `closed_`
and `joined_` atomic latches, plus counters for the externally visible
effects: how many times `closingEmitter_.close()` fired, how many
shutdown sentinels (`nullopt`) were pushed onto the request queue, and
how many times the worker `thread_` was joined. -/
structure CtxState where
  closed : Bool
  joined : Bool
  emitterCloses : Nat
  sentinelPushes : Nat
  threadJoins : Nat
deriving DecidableEq

/-- `Context::Impl::close` (cma.cc lines 72-83): the
`compare_exchange_strong` on `closed_`; only the transition from `false`
fires the closing emitter and pushes the shutdown sentinel. -/
def ctxClose (s : CtxState) : CtxState :=
  if s.closed then s
  else { s with
           closed := true,
           emitterCloses := s.emitterCloses + 1,
           sentinelPushes := s.sentinelPushes + 1 }

/-- `Context::Impl::join` (cma.cc lines 89-100): first call `close()`,
then the `compare_exchange_strong` on `joined_`; only the transition
from `false` joins the worker thread. -/
def ctxJoin (s : CtxState) : CtxState :=
  let s1 := ctxClose s
  if s1.joined then s1
  else { s1 with joined := true, threadJoins := s1.threadJoins + 1 }

/-- A linearized sequence of close/join calls applied to the context
(the atomics make concurrent calls linearizable). -/
def runCtx (s : CtxState) : List CtxCall → CtxState
  | [] => s
  | CtxCall.close :: rest => runCtx (ctxClose s) rest
  | CtxCall.join :: rest => runCtx (ctxJoin s) rest

/-- A freshly constructed context. -/
def initCtx : CtxState := ⟨false, false, 0, 0, 0⟩

/-- The context state after the first close has run (and no join). -/
def closedCtx : CtxState := ⟨true, false, 1, 1, 0⟩

/-- The context state after close and join have both run. -/
def joinedCtx : CtxState := ⟨true, true, 1, 1, 1⟩

theorem ctxClose_closedCtx : ctxClose closedCtx = closedCtx := rfl

theorem ctxClose_joinedCtx : ctxClose joinedCtx = joinedCtx := rfl

theorem runCtx_joinedCtx : ∀ calls : List CtxCall,
    runCtx joinedCtx calls = joinedCtx := by
  intro calls
  induction calls with
  | nil => rfl
  | cons hd rest ih => cases hd <;> simpa [runCtx, ctxClose, ctxJoin] using ih

theorem runCtx_closedCtx : ∀ calls : List CtxCall,
    runCtx closedCtx calls
      = if CtxCall.join ∈ calls then joinedCtx else closedCtx := by
  intro calls
  induction calls with
  | nil => rfl
  | cons hd rest ih =>
      cases hd with
      | close => simpa [runCtx, ctxClose_closedCtx] using ih
      | join =>
          have hj : ctxJoin closedCtx = joinedCtx := rfl
          simp [runCtx, hj, runCtx_joinedCtx]

theorem runCtx_initCtx (calls : List CtxCall) :
    runCtx initCtx calls
      = if calls = [] then initCtx
        else if CtxCall.join ∈ calls then joinedCtx else closedCtx := by
  cases calls with
  | nil => rfl
  | cons hd rest =>
      cases hd with
      | close =>
          have hc : ctxClose initCtx = closedCtx := rfl
          simp only [runCtx, hc, runCtx_closedCtx rest]
          simp [List.mem_cons]
      | join =>
          have hj : ctxJoin initCtx = joinedCtx := rfl
          simp [runCtx, hj, runCtx_joinedCtx rest]

/-- Claim C8: over any linearized sequence of close/join calls on a
fresh context, the `closed` and `joined` latches each transition
false→true at most once; the closing emitter fires and the shutdown
sentinel is pushed exactly once as soon as at least one call happened
(only the first close does it), so the worker pops exactly one sentinel
and exits once (its trace is independent of whatever would follow the
sentinel); the worker thread is joined exactly once as soon as some join
was called (only the first join does it); and join always closes before
joining, so a join alone still pushes the sentinel. -/
theorem claim8_context_latches (calls : List CtxCall) :
    (runCtx initCtx calls).sentinelPushes = (if calls = [] then 0 else 1) ∧
    (runCtx initCtx calls).emitterCloses = (if calls = [] then 0 else 1) ∧
    (runCtx initCtx calls).threadJoins
      = (if CtxCall.join ∈ calls then 1 else 0) ∧
    (runCtx initCtx calls).closed = (decide (calls ≠ [])) ∧
    (runCtx initCtx calls).joined = (decide (CtxCall.join ∈ calls)) ∧
    (∀ s : CtxState, (ctxJoin s).closed = true) ∧
    (∀ s : CtxState, s.closed = true → ctxClose s = s) ∧
    (∀ s : CtxState, s.closed = true → s.joined = true → ctxJoin s = s) ∧
    (∀ (os : Nat → Int × Int) (reqs : List CopyRequest)
        (junk : List (Option CopyRequest)),
      handleCopyRequests os 0 (reqs.map some ++ none :: junk)
        = handleCopyRequests os 0 (reqs.map some ++ [none])) := by
  have hmain := runCtx_initCtx calls
  have hne : calls ≠ [] → (CtxCall.join ∈ calls ∨ CtxCall.join ∉ calls) := by
    intro hcalls
    exact em (CtxCall.join ∈ calls)
  refine ⟨?_, ?_, ?_, ?_, ?_, ?_, ?_, ?_, ?_⟩
  · rw [hmain]
    by_cases h0 : calls = []
    · simp [h0, initCtx]
    · rcases em (CtxCall.join ∈ calls) with hj | hj <;>
        simp [h0, hj, joinedCtx, closedCtx]
  · rw [hmain]
    by_cases h0 : calls = []
    · simp [h0, initCtx]
    · rcases em (CtxCall.join ∈ calls) with hj | hj <;>
        simp [h0, hj, joinedCtx, closedCtx]
  · rw [hmain]
    by_cases h0 : calls = []
    · simp [h0, initCtx]
    · rcases em (CtxCall.join ∈ calls) with hj | hj <;>
        simp [h0, hj, joinedCtx, closedCtx, initCtx]
  · rw [hmain]
    by_cases h0 : calls = []
    · simp [h0, initCtx]
    · rcases em (CtxCall.join ∈ calls) with hj | hj <;>
        simp [h0, hj, joinedCtx, closedCtx]
  · rw [hmain]
    by_cases h0 : calls = []
    · simp [h0, initCtx]
    · rcases em (CtxCall.join ∈ calls) with hj | hj <;>
        simp [h0, hj, joinedCtx, closedCtx, initCtx]
  · intro s
    unfold ctxJoin ctxClose
    by_cases hc : s.closed <;> by_cases hj : s.joined <;> simp [hc, hj]
  · intro s hs
    unfold ctxClose
    rw [if_pos hs]
  · intro s hs hj
    unfold ctxJoin ctxClose
    rw [if_pos hs]
    simp [hj]
  · intro os reqs junk
    rw [handleCopyRequests_eq_specWorkerTrace os junk reqs 0,
      handleCopyRequests_eq_specWorkerTrace os [] reqs 0]

/-- Witness for C8 on the call sequence close-close-join. -/
theorem claim8_context_latches_witness :
    (runCtx initCtx [CtxCall.close, CtxCall.close, CtxCall.join]).sentinelPushes
        = 1 ∧
    (runCtx initCtx [CtxCall.close, CtxCall.close, CtxCall.join]).emitterCloses
        = 1 ∧
    (runCtx initCtx [CtxCall.close, CtxCall.close, CtxCall.join]).threadJoins
        = 1 := by
  have h := claim8_context_latches [CtxCall.close, CtxCall.close, CtxCall.join]
  refine ⟨?_, ?_, ?_⟩
  · rw [h.1]
    decide
  · rw [h.2.1]
    decide
  · rw [h.2.2.1]
    decide

/-- The channel name constant (cma.cc line 31). -/
def kChannelName : String := "cma"

/-- `generateDomainDescriptor` (cma.cc lines 33-56): if the boot id
cannot be read, `TP_THROW_ASSERT_IF` aborts construction (modelled as
`none`); otherwise the stream builds channel name, ":", the boot id,
"/", the effective uid in decimal, "/", the effective gid in decimal.
`getBootID` itself lives in `common/system.h`, outside the sources at
hand, so its result is a parameter. -/
def generateDomainDescriptor (bootID : Option String) (euid egid : Nat) :
    Option String :=
  match bootID with
  | none => none
  | some b =>
      some (kChannelName ++ ":" ++ b ++ "/" ++ toString euid ++ "/"
        ++ toString egid)

/-- The descriptor format exactly as the claim states it:
`"cma:" <boot_id> "/" <euid> "/" <egid>` with the ids in decimal. -/
def specDomainDescriptor (bootID : String) (euid egid : Nat) : String :=
  "cma:" ++ bootID ++ "/" ++ Nat.repr euid ++ "/" ++ Nat.repr egid

/-- Claim C9: when the boot id is readable, the domain descriptor is
exactly the string `"cma:" ++ bootId ++ "/" ++ euid ++ "/" ++ egid` with
the effective user and group ids in decimal; when the boot id cannot be
read, context construction fails fatally and no descriptor is
produced. -/
theorem claim9_domain_descriptor (b : String) (euid egid : Nat) :
    generateDomainDescriptor (some b) euid egid
      = some (specDomainDescriptor b euid egid) ∧
    generateDomainDescriptor none euid egid = none :=
  ⟨rfl, rfl⟩

/-- The observable state of one thread with respect to a channel's
cooperative loop (`Channel::Impl::deferToLoop_`, cma.cc lines 209-232):
outside the loop, inside the drain loop between tasks, or executing a
task whose remaining inner `deferToLoop_` calls are the listed task
ids. -/
inductive TState where
  | outside
  | inDrain
  | executing (defers : List Nat)
deriving DecidableEq

/-- Shared state of the cooperative loop: the `pendingTasks_` queue and
the `currentLoop_` runner identifier (both guarded by `mutex_`), the
per-thread control state, and two ghost histories recording the order in
which task ids were enqueued and the order in which their execution
started. -/
structure LoopSys where
  pending : List Nat
  currentLoop : Option Nat
  tstate : Nat → TState
  enqHist : List Nat
  execHist : List Nat

/-- The initial loop state: empty queue, no runner
(`currentLoop_ = std::thread::id()`), every thread outside. -/
def initLoop : LoopSys :=
  { pending := [], currentLoop := none, tstate := fun _ => TState.outside,
    enqHist := [], execHist := [] }

/-- Small-step semantics of `deferToLoop_`. Each step is one critical
section under `mutex_` (or a lock-free action of the running task).
`body t` lists the task ids that task `t` itself defers while running.

* `deferIdle`: a thread outside the loop calls `deferToLoop_`, appends
  the task, finds `currentLoop_` unset, installs itself as runner and
  enters the drain loop;
* `deferBusy`: a thread outside the loop calls `deferToLoop_`, appends
  the task, finds a runner installed and returns immediately — no
  thread state changes;
* `drainPop`: the runner pops the front task, FIFO, and starts
  executing it;
* `drainDone`: the runner finds the queue empty, clears `currentLoop_`
  and returns;
* `innerDefer`: a running task calls `deferToLoop_`; since
  `currentLoop_` is set (to its own thread) this just appends;
* `taskDone`: the running task finishes and control returns to the
  drain loop. -/
inductive LoopStep (body : Nat → List Nat) : LoopSys → LoopSys → Prop where
  | deferIdle (s : LoopSys) (t taskId : Nat) :
      s.tstate t = TState.outside → s.currentLoop = none →
      LoopStep body s
        { s with
            pending := s.pending ++ [taskId],
            currentLoop := some t,
            tstate := fun u => if u = t then TState.inDrain else s.tstate u,
            enqHist := s.enqHist ++ [taskId] }
  | deferBusy (s : LoopSys) (t taskId r : Nat) :
      s.tstate t = TState.outside → s.currentLoop = some r →
      LoopStep body s
        { s with
            pending := s.pending ++ [taskId],
            enqHist := s.enqHist ++ [taskId] }
  | drainPop (s : LoopSys) (t taskId : Nat) (rest : List Nat) :
      s.tstate t = TState.inDrain → s.pending = taskId :: rest →
      LoopStep body s
        { s with
            pending := rest,
            tstate := fun u =>
              if u = t then TState.executing (body taskId) else s.tstate u,
            execHist := s.execHist ++ [taskId] }
  | drainDone (s : LoopSys) (t : Nat) :
      s.tstate t = TState.inDrain → s.pending = [] →
      LoopStep body s
        { s with
            currentLoop := none,
            tstate := fun u => if u = t then TState.outside else s.tstate u }
  | innerDefer (s : LoopSys) (t taskId : Nat) (rest : List Nat) :
      s.tstate t = TState.executing (taskId :: rest) →
      LoopStep body s
        { s with
            pending := s.pending ++ [taskId],
            tstate := fun u =>
              if u = t then TState.executing rest else s.tstate u,
            enqHist := s.enqHist ++ [taskId] }
  | taskDone (s : LoopSys) (t : Nat) :
      s.tstate t = TState.executing [] →
      LoopStep body s
        { s with
            tstate := fun u => if u = t then TState.inDrain else s.tstate u }

/-- Reachability from the initial loop state. -/
inductive LoopReaches (body : Nat → List Nat) : LoopSys → Prop where
  | init : LoopReaches body initLoop
  | step (s s2 : LoopSys) :
      LoopReaches body s → LoopStep body s s2 → LoopReaches body s2

/-- The inductive invariant: any thread engaged with the loop (draining
or executing) is the installed runner, and the enqueue history is the
execution-start history followed by the still-pending queue (so tasks
start executing in exactly the order they were enqueued). -/
def LoopInv (s : LoopSys) : Prop :=
  (∀ t, s.tstate t ≠ TState.outside → s.currentLoop = some t) ∧
  s.enqHist = s.execHist ++ s.pending

/-- The guarantees of the cooperative loop as the claim states them:
at most one thread is engaged with the loop at any instant (so at most
one task executes at a time), tasks start in FIFO enqueue order with the
pending queue holding exactly the not-yet-started suffix, and when a
runner is installed a `deferToLoop_` call from any other thread takes
the `deferBusy` step: it appends its task and leaves every thread state,
and the runner, unchanged. -/
def LoopGuarantees (body : Nat → List Nat) (s : LoopSys) : Prop :=
  (∀ t u, s.tstate t ≠ TState.outside → s.tstate u ≠ TState.outside → t = u) ∧
  s.enqHist = s.execHist ++ s.pending ∧
  (∀ t taskId r, s.tstate t = TState.outside → s.currentLoop = some r →
    LoopStep body s
      { s with
          pending := s.pending ++ [taskId],
          enqHist := s.enqHist ++ [taskId] })

theorem loopInv_init : LoopInv initLoop := by
  constructor
  · intro t ht
    exact absurd rfl ht
  · rfl

theorem loopInv_step (body : Nat → List Nat) (s s2 : LoopSys)
    (hstep : LoopStep body s s2) (hinv : LoopInv s) : LoopInv s2 := by
  obtain ⟨hrun, hfifo⟩ := hinv
  cases hstep with
  | deferIdle t taskId htout hcl =>
      constructor
      · intro u hu
        simp only at hu ⊢
        by_cases hut : u = t
        · rw [hut]
        · rw [if_neg hut] at hu
          have := hrun u hu
          rw [hcl] at this
          cases this
      · simp only
        rw [hfifo, List.append_assoc]
  | deferBusy t taskId r htout hcl =>
      constructor
      · intro u hu
        exact hrun u hu
      · simp only
        rw [hfifo, List.append_assoc]
  | drainPop t taskId rest htin hpend =>
      constructor
      · intro u hu
        simp only at hu ⊢
        by_cases hut : u = t
        · rw [hut]
          apply hrun
          rw [htin]
          intro hcontra
          cases hcontra
        · rw [if_neg hut] at hu
          exact hrun u hu
      · simp only
        rw [hfifo, hpend, List.append_assoc]
        rfl
  | drainDone t htin hpend =>
      constructor
      · intro u hu
        simp only at hu
        by_cases hut : u = t
        · rw [if_pos hut] at hu
          exact absurd rfl hu
        · rw [if_neg hut] at hu
          have hu2 := hrun u hu
          have ht2 : s.currentLoop = some t := by
            apply hrun
            rw [htin]
            intro hcontra
            cases hcontra
          rw [hu2] at ht2
          injection ht2 with h2
          exact absurd h2 hut
      · simp only
        rw [hfifo, hpend]
  | innerDefer t taskId rest hexec =>
      constructor
      · intro u hu
        simp only at hu ⊢
        by_cases hut : u = t
        · rw [hut]
          apply hrun
          rw [hexec]
          intro hcontra
          cases hcontra
        · rw [if_neg hut] at hu
          exact hrun u hu
      · simp only
        rw [hfifo, List.append_assoc]
  | taskDone t hexec =>
      constructor
      · intro u hu
        simp only at hu ⊢
        by_cases hut : u = t
        · rw [hut]
          apply hrun
          rw [hexec]
          intro hcontra
          cases hcontra
        · rw [if_neg hut] at hu
          exact hrun u hu
      · exact hfifo

theorem loopInv_reaches (body : Nat → List Nat) (s : LoopSys)
    (h : LoopReaches body s) : LoopInv s := by
  induction h with
  | init => exact loopInv_init
  | step s s2 _ hstep ih => exact loopInv_step body s s2 hstep ih

/-- Claim C6: in every reachable state of the cooperative loop, at most
one thread is engaged with it (the runner), hence at most one task
executes at any instant; tasks are executed one at a time in FIFO
enqueue order, with the pending queue holding exactly the enqueued
tasks whose execution has not started; and while a runner exists any
other thread's `deferToLoop_` just appends its task and returns,
changing no thread state. The step relation itself exhibits the rest of
the claim: `deferIdle` makes the calling thread the runner when none
exists, `drainDone` clears the runner exactly when the queue is empty,
and `innerDefer` shows a reentrant defer from a running task only
enqueues. -/
theorem claim6_defer_loop (body : Nat → List Nat) (s : LoopSys)
    (h : LoopReaches body s) : LoopGuarantees body s := by
  obtain ⟨hrun, hfifo⟩ := loopInv_reaches body s h
  refine ⟨?_, hfifo, ?_⟩
  · intro t u ht hu
    have h1 := hrun t ht
    have h2 := hrun u hu
    rw [h1] at h2
    injection h2
  · intro t taskId r htout hcl
    exact LoopStep.deferBusy s t taskId r htout hcl

/-- Witness for C6: the guarantees hold in the state reached by
deferring a task from thread 0 onto the idle loop. -/
theorem claim6_defer_loop_witness :
    LoopGuarantees (fun _ => [])
      { pending := [] ++ [5], currentLoop := some 0,
        tstate := fun u => if u = 0 then TState.inDrain else TState.outside,
        enqHist := [] ++ [5], execHist := [] } :=
  claim6_defer_loop (fun _ => []) _
    (LoopReaches.step _ _ LoopReaches.init
      (LoopStep.deferIdle initLoop 0 5 rfl rfl))

/-- One unit of work processed on the channel loop: a send task, the
arrival of a transport read completion (with its error and packet), a
close task, or the completion of a recv's copy request. -/
inductive LoopCmd where
  | send (ptr len : Nat)
  | packet (readErr : Option Err) (p : Packet)
  | close
  | copyDone (opId : Nat) (res : Option Err)
deriving DecidableEq

/-- Processing of a transport read completion through
`readPacketCallbackWrapper_` (cma.cc lines 355-362). The wrapper
(`DeferringCallbackWrapper`, `common/callback.h`) is not under `src/`;
it is Modelled from the spec: "Any transport or copy callback that
observes an error argument sets the channel error (if unset) and runs
`handleError`" (§4.3.5) and, in the Failed state, incoming
notifications are "ignored" (§4.3.5 state table), so on an already
errored channel the wrapped handler is skipped. -/
def wrappedPacket (c : Channel) (readErr : Option Err) (p : Packet) :
    Option (Channel × List Event) :=
  match c.error with
  | some _ => some (c, [])
  | none =>
      match readErr with
      | some e => some (handleError { c with error := some e })
      | none => onPacket c p

/-- One step of the channel loop, dispatching a command to the
corresponding loop function. `none` is a fatal assertion. -/
def stepCmd (pid : Nat) (c : Channel) : LoopCmd → Option (Channel × List Event)
  | LoopCmd.send ptr len => sendFromLoop c ptr len pid
  | LoopCmd.packet re p => wrappedPacket c re p
  | LoopCmd.close => some (closeFromLoop c)
  | LoopCmd.copyDone i res => some (onCopyDone c i res)

/-- Run a list of loop commands in order, concatenating the emitted
events; `none` as soon as a fatal assertion occurs. -/
def runCmds (pid : Nat) : Channel → List LoopCmd → Option (Channel × List Event)
  | c, [] => some (c, [])
  | c, cmd :: rest =>
      match stepCmd pid c cmd with
      | none => none
      | some (c1, e1) =>
          match runCmds pid c1 rest with
          | none => none
          | some (c2, e2) => some (c2, e1 ++ e2)

/-- The coverage invariant behind claim C10: on a channel with no error
set, every operation whose descriptor has been handed to the caller (a
successful descriptor-callback event) and whose success notification has
not yet been consumed (no success send-callback event) is still
registered in the in-flight list. -/
def Covered (c : Channel) (evs : List Event) : Prop :=
  c.error = none →
  ∀ d : Descriptor, Event.descriptorCb none d ∈ evs →
    Event.sendCb d.operationId none ∉ evs →
    d.operationId ∈ c.sendOperations

theorem covered_step (pid : Nat) (c : Channel) (evs : List Event)
    (cmd : LoopCmd) (c2 : Channel) (e2 : List Event)
    (hstep : stepCmd pid c cmd = some (c2, e2))
    (hcov : Covered c evs) : Covered c2 (evs ++ e2) := by
  cases cmd with
  | send ptr len =>
      cases herr : c.error with
      | some e =>
          rw [stepCmd, sendFromLoop, herr] at hstep
          cases hstep
      | none =>
          rw [stepCmd, sendFromLoop, herr] at hstep
          injection hstep with hpair
          injection hpair with hc he
          intro h2 d hd hns
          rw [← hc]
          simp only
          rw [← he] at hd hns
          rcases List.mem_append.mp hd with hold | hnew
          · have hnso : Event.sendCb d.operationId none ∉ evs := fun hmem =>
              hns (List.mem_append_left _ hmem)
            exact List.mem_append_left _ (hcov herr d hold hnso)
          · simp only [List.mem_cons, List.not_mem_nil, or_false] at hnew
            rcases hnew with h1 | h1
            · cases h1
            · injection h1 with he1 hd1
              rw [hd1]
              simp
  | packet re p =>
      cases herr : c.error with
      | some e =>
          simp only [stepCmd, wrappedPacket.eq_def, herr] at hstep
          injection hstep with hpair
          injection hpair with hc he
          intro h2
          rw [← hc, herr] at h2
          cases h2
      | none =>
          cases re with
          | some e =>
              simp only [stepCmd, wrappedPacket.eq_def, herr, handleError]
                at hstep
              injection hstep with hpair
              injection hpair with hc he
              intro h2
              rw [← hc] at h2
              cases h2
          | none =>
              simp only [stepCmd, wrappedPacket.eq_def, herr] at hstep
              cases p with
              | notification n =>
                  rw [onPacket] at hstep
                  by_cases hm : n ∈ c.sendOperations
                  · rw [onNotification, if_pos hm] at hstep
                    simp only at hstep
                    injection hstep with hpair
                    injection hpair with hc he
                    intro h2 d hd hns
                    rw [← hc]
                    simp only
                    rw [← he] at hd hns
                    have hdevs : Event.descriptorCb none d ∈ evs := by
                      rcases List.mem_append.mp hd with h1 | h1
                      · exact h1
                      · simp only [List.cons_append, List.nil_append,
                          List.mem_cons, List.not_mem_nil, or_false] at h1
                        rcases h1 with h1 | h1 <;> cases h1
                    have hdn : d.operationId ≠ n := by
                      intro hdn
                      apply hns
                      apply List.mem_append_right
                      rw [hdn]
                      simp
                    have hnso : Event.sendCb d.operationId none ∉ evs :=
                      fun hmem => hns (List.mem_append_left _ hmem)
                    exact (List.mem_erase_of_ne hdn).mpr
                      (hcov herr d hdevs hnso)
                  · rw [onNotification, if_neg hm] at hstep
                    cases hstep
  | close =>
      cases herr : c.error with
      | some e =>
          rw [stepCmd, closeFromLoop, herr] at hstep
          injection hstep with hpair
          injection hpair with hc he
          intro h2
          rw [← hc, herr] at h2
          cases h2
      | none =>
          rw [stepCmd, closeFromLoop, herr] at hstep
          simp only [handleError] at hstep
          injection hstep with hpair
          injection hpair with hc he
          intro h2
          rw [← hc] at h2
          cases h2
  | copyDone i res =>
      cases res with
      | some e =>
          rw [stepCmd, onCopyDone] at hstep
          injection hstep with hpair
          injection hpair with hc he
          intro h2 d hd hns
          rw [← hc]
          rw [← he] at hd hns
          rw [← hc] at h2
          have hdevs : Event.descriptorCb none d ∈ evs := by
            rcases List.mem_append.mp hd with h1 | h1
            · exact h1
            · simp only [List.mem_cons, List.not_mem_nil, or_false] at h1
              cases h1
          have hnso : Event.sendCb d.operationId none ∉ evs :=
            fun hmem => hns (List.mem_append_left _ hmem)
          exact hcov h2 d hdevs hnso
      | none =>
          rw [stepCmd, onCopyDone] at hstep
          injection hstep with hpair
          injection hpair with hc he
          intro h2 d hd hns
          rw [← hc]
          rw [← he] at hd hns
          rw [← hc] at h2
          have hdevs : Event.descriptorCb none d ∈ evs := by
            rcases List.mem_append.mp hd with h1 | h1
            · exact h1
            · simp only [List.mem_cons, List.not_mem_nil, or_false] at h1
              rcases h1 with h1 | h1 <;> cases h1
          have hnso : Event.sendCb d.operationId none ∉ evs :=
            fun hmem => hns (List.mem_append_left _ hmem)
          exact hcov h2 d hdevs hnso

theorem covered_run (pid : Nat) :
    ∀ (cmds : List LoopCmd) (c : Channel) (evs : List Event)
      (c2 : Channel) (e2 : List Event),
      runCmds pid c cmds = some (c2, e2) → Covered c evs →
      Covered c2 (evs ++ e2) := by
  intro cmds
  induction cmds with
  | nil =>
      intro c evs c2 e2 hrun hcov
      rw [runCmds] at hrun
      injection hrun with hpair
      injection hpair with hc he
      rw [← hc, ← he]
      simpa using hcov
  | cons cmd rest ih =>
      intro c evs c2 e2 hrun hcov
      cases hstep : stepCmd pid c cmd with
      | none => rw [runCmds, hstep] at hrun; cases hrun
      | some pr =>
          obtain ⟨c1, e1⟩ := pr
          cases hrec : runCmds pid c1 rest with
          | none =>
              rw [runCmds, hstep] at hrun
              simp only [hrec] at hrun
              cases hrun
          | some pr2 =>
              obtain ⟨c3, e3⟩ := pr2
              rw [runCmds, hstep] at hrun
              simp only [hrec, Option.some.injEq, Prod.mk.injEq] at hrun
              obtain ⟨hc, he⟩ := hrun
              subst hc
              subst he
              have h1 := covered_step pid c evs cmd c1 e1 hstep hcov
              have h2 := ih c1 (evs ++ e1) c3 e3 hrec h1
              rw [List.append_assoc] at h2
              exact h2

/-- Claim C10: in `sendFromLoop_` the operation is appended to the
in-flight list before the descriptor callback is invoked (the append
event strictly precedes the callback event in the task's event
sequence, and the operation is in the resulting list); consequently, in
any run of loop commands from a fresh channel, whenever a descriptor
has been handed to the caller and its operation's success notification
has not been consumed, that operation is registered in the in-flight
list while the channel has no error set, and a notification for that
descriptor's id cannot hit the fatal unknown-id assertion. -/
theorem claim10_append_before_descriptor (pid : Nat) (cmds : List LoopCmd)
    (c : Channel) (evs : List Event) (d : Descriptor)
    (hrun : runCmds pid initChannel cmds = some (c, evs))
    (hactive : c.error = none)
    (hdelivered : Event.descriptorCb none d ∈ evs)
    (hpending : Event.sendCb d.operationId none ∉ evs) :
    d.operationId ∈ c.sendOperations ∧
    stepCmd pid c (LoopCmd.packet none (Packet.notification d.operationId))
      ≠ none ∧
    (∀ (c3 : Channel) (ptr len : Nat) (r : Channel × List Event),
      sendFromLoop c3 ptr len pid = some r →
      r.2 = [Event.opAppended c3.id,
             Event.descriptorCb none ⟨c3.id, pid, ptr⟩] ∧
      c3.id ∈ r.1.sendOperations) := by
  have hcov0 : Covered initChannel [] := by
    intro h2 d2 hd2
    cases hd2
  have hcov := covered_run pid cmds initChannel [] c evs hrun hcov0
  rw [List.nil_append] at hcov
  have hmem := hcov hactive d hdelivered hpending
  refine ⟨hmem, ?_, ?_⟩
  · rw [stepCmd, wrappedPacket, hactive, onPacket, onNotification,
      if_pos hmem]
    intro hcontra
    cases hcontra
  · intro c3 ptr len r hsend
    cases herr3 : c3.error with
    | some e =>
        rw [sendFromLoop, herr3] at hsend
        cases hsend
    | none =>
        rw [sendFromLoop, herr3] at hsend
        injection hsend with hr
        rw [← hr]
        constructor
        · rfl
        · simp

/-- Witness for C10: a single send on a fresh channel delivers the
descriptor for operation 0, which is registered, and a notification for
it does not hit the fatal path. -/
theorem claim10_append_before_descriptor_witness :
    (runCmds 7 initChannel [LoopCmd.send 10 4]
      = some (⟨none, 1, [0], false⟩,
              [Event.opAppended 0, Event.descriptorCb none ⟨0, 7, 10⟩])) ∧
    ((⟨none, 1, [0], false⟩ : Channel).error = none) ∧
    (Event.descriptorCb none ⟨0, 7, 10⟩
      ∈ [Event.opAppended 0, Event.descriptorCb none ⟨0, 7, 10⟩]) ∧
    (Event.sendCb (Descriptor.operationId ⟨0, 7, 10⟩) none
      ∉ [Event.opAppended 0, Event.descriptorCb none ⟨0, 7, 10⟩]) ∧
    ((Descriptor.operationId ⟨0, 7, 10⟩)
        ∈ (⟨none, 1, [0], false⟩ : Channel).sendOperations ∧
      stepCmd 7 ⟨none, 1, [0], false⟩
        (LoopCmd.packet none
          (Packet.notification (Descriptor.operationId ⟨0, 7, 10⟩))) ≠ none ∧
      (∀ (c3 : Channel) (ptr len : Nat) (r : Channel × List Event),
        sendFromLoop c3 ptr len 7 = some r →
        r.2 = [Event.opAppended c3.id,
               Event.descriptorCb none ⟨c3.id, 7, ptr⟩] ∧
        c3.id ∈ r.1.sendOperations)) :=
  ⟨by decide, rfl, by decide, by decide,
   claim10_append_before_descriptor 7 [LoopCmd.send 10 4]
     ⟨none, 1, [0], false⟩
     [Event.opAppended 0, Event.descriptorCb none ⟨0, 7, 10⟩]
     ⟨0, 7, 10⟩ (by decide) rfl (by decide) (by decide)⟩

end Cma
